import Mathlib

/-!
# Verification of the problem-solver agent against its specification

Shallow embedding of the relevant parts of the repository
(`qwen_client.py`, `solver_client.py`, `image_grouper.py`, `utils.py`,
`problem_solver_agent/utils.py`, `config.py`) together with theorems
settling the frozen claims about the natural-language specification.

Strings from the Python source are modelled as Lean `String`s or as
`List Char` where character-level scanning is required.
-/

namespace ProblemSolverAgent

/-! ## Configuration constants (`config.py`) -/

/-- `config.py` line 85: `MAX_RETRIES = 3`. -/
def MAX_RETRIES : Nat := 3

/-- `config.py` line 86: `RETRY_DELAY = 10` (seconds, fixed inter-retry delay). -/
def RETRY_DELAY : Nat := 10

/-! ## Vision-client classification (`qwen_client.py`, `classify_problem_type`)

`classify_problem_type` sends the classification prompt and receives either a
response string or `None` (the underlying `_call_qwen_api` returns `None` on
failure for non-streaming calls).  The response is accepted only when it is
exactly one of the six valid labels; anything else yields `"GENERAL"`. -/

/-- The closed label set `valid_types` from `classify_problem_type`. -/
def validTypes : List String :=
  ["CODING", "VISUAL_REASONING", "QUESTION_ANSWERING", "GENERAL",
   "MULTIPLE_CHOICE", "FILL_IN_THE_BLANKS"]

/-- `qwen_client.classify_problem_type`, as a function of the (optional)
response string obtained from the vision model: the response is returned
verbatim when it is a string belonging to `valid_types`, and `"GENERAL"`
otherwise (including a failed call, modelled as `none`). -/
def classify_problem_type (response : Option String) : String :=
  match response with
  | some r => if r ∈ validTypes then r else "GENERAL"
  | none => "GENERAL"

/-! ## Python string helpers used by the orchestrator

`"leetcode" in transcribed_text.lower()` (`image_grouper.py` line 282) is
Python substring containment of the literal over the lowercased text. -/

/-- Python `str.lower()` (the inputs at issue are ASCII, where `.lower()` is
the per-character ASCII case mapping). -/
def pyLower (s : String) : String :=
  ⟨s.data.map Char.toLower⟩

/-- Python's `in` operator on strings: substring containment. -/
def pyInStr (pat s : String) : Bool :=
  decide (pat.data <:+: s.data)

/-- `image_grouper._execute_pipeline` line 282: refine a `CODING`
classification using the transcribed text:
`"LEETCODE" if "leetcode" in transcribed_text.lower() else "ACM"`. -/
def refine_coding (transcribed_text : String) : String :=
  if pyInStr "leetcode" (pyLower transcribed_text) then "LEETCODE" else "ACM"

/-- `image_grouper._determine_solver` lines 211-214: the routing family key
looked up in `config.SOLVER_ROUTING_CONFIG`. -/
def solver_routing_family (final_problem_type : String) : String :=
  if final_problem_type = "LEETCODE" ∨ final_problem_type = "ACM" then
    "CODING_SOLVER"
  else
    "DEFAULT_SOLVER"

/-! ## Retrying file move (`image_grouper._move_file_with_retry`)

The effect of one `shutil.move` call is modelled by an environment that maps
each attempt index to the outcome the filesystem produced on that attempt:
success, `FileNotFoundError` (the source disappeared), or any other error. -/

/-- Outcome of a single `shutil.move` attempt. -/
inductive MoveOutcome
  | ok
  | notFound
  | err
  deriving DecidableEq, Repr

/-- One pass of `_move_file_with_retry`'s `for i in range(retries)` loop,
starting at attempt index `i` with `fuel` loop iterations remaining and
`sleeps` fixed-delay sleeps already performed.  Returns the boolean result
of the Python function, the number of move attempts performed, and the
number of `time.sleep(delay)` calls performed (each with the single fixed
`delay` argument, default `0.5`). -/
def moveRetryGo (env : Nat → MoveOutcome) (retries : Nat) :
    Nat → Nat → Nat → Bool × Nat × Nat
  | 0, _, sleeps => (false, retries, sleeps)
  | fuel + 1, i, sleeps =>
    match env i with
    | .ok => (true, i + 1, sleeps)
    | .notFound => (true, i + 1, sleeps)
    | .err =>
      if i < retries - 1 then
        moveRetryGo env retries fuel (i + 1) (sleeps + 1)
      else
        (false, i + 1, sleeps)

/-- `image_grouper._move_file_with_retry` (default `retries=3`,
`delay=0.5`): attempts `shutil.move` up to `retries` times; a successful
move or a `FileNotFoundError` returns `True` immediately, any other
exception sleeps the fixed delay and retries, and exhausting the attempts
returns `False`. -/
def move_file_with_retry (env : Nat → MoveOutcome) (retries : Nat := 3) :
    Bool × Nat × Nat :=
  moveRetryGo env retries retries 0 0

/-! ## Unified solver client (`solver_client.py`)

`stream_solve` runs `for attempt in range(config.MAX_RETRIES + 1)`; inside
the `try` it builds a client (`get_client`, which raises `ValueError` on a
missing provider configuration or missing API key), shapes the payload, and
issues the request.  Connectivity/timeout errors (`APIConnectionError`,
`APITimeoutError`) are retried after a fixed `config.RETRY_DELAY` sleep
until `MAX_RETRIES` retries are exhausted; any other exception breaks out
immediately.  In every failure case the function returns a generator
yielding one inline terminal-error chunk naming the model; it never lets an
exception escape to the caller. -/

/-- Outcome of one attempt of the `try` body of `stream_solve`:
a successful streaming response (its chunks), a connectivity/timeout-class
error, or any other (non-retryable) exception. -/
inductive SolveAttempt
  | success (chunks : List String)
  | connError
  | fatal
  deriving DecidableEq, Repr

/-- The inline terminal-error chunk yielded by `stream_solve`'s
`error_generator` (`solver_client.py` line 116). -/
def solverErrorChunk (model : String) : String :=
  "\n\n--- ERROR in solver_client: All retries failed for model " ++ model ++ ". ---\n"

/-- The retry loop of `stream_solve`: `i` is the current attempt index,
`fuel` the remaining loop iterations (`maxRetries + 1 - i`), `sleeps` the
`time.sleep(RETRY_DELAY)` calls performed so far.  Returns the stream the
caller receives (list of yielded chunks), the number of request attempts
performed, and the number of fixed-delay sleeps. -/
def streamSolveGo (env : Nat → SolveAttempt) (model : String) (maxRetries : Nat) :
    Nat → Nat → Nat → List String × Nat × Nat
  | 0, i, sleeps => ([solverErrorChunk model], i, sleeps)
  | fuel + 1, i, sleeps =>
    match env i with
    | .success cs => (cs, i + 1, sleeps)
    | .connError =>
      if i < maxRetries then
        streamSolveGo env model maxRetries fuel (i + 1) (sleeps + 1)
      else
        ([solverErrorChunk model], i + 1, sleeps)
    | .fatal => ([solverErrorChunk model], i + 1, sleeps)

/-- `solver_client.stream_solve` as a function of the per-attempt outcomes:
returns the stream handed to the caller, the attempt count, and the number
of fixed-delay sleeps. -/
def stream_solve (env : Nat → SolveAttempt) (model : String)
    (maxRetries : Nat := MAX_RETRIES) : List String × Nat × Nat :=
  streamSolveGo env model maxRetries (maxRetries + 1) 0 0

/-- `solver_client.get_client` startup checks (lines 57-62): a provider with
no entry in `config.SOLVER_CONFIG` or with no API key raises `ValueError`.
Since `get_client` is invoked inside `stream_solve`'s `try`, such a failure
is a non-retryable exception on every attempt. -/
def get_client_ok (providerConfigured keyPresent : Bool) : Bool :=
  providerConfigured && keyPresent

/-- The per-attempt outcome seen by `stream_solve` when the client
construction fails: every attempt raises before reaching the network. -/
def clientEnv (clientOk : Bool) (net : Nat → SolveAttempt) : Nat → SolveAttempt :=
  fun i => if clientOk then net i else .fatal

/-! ## Question-number extraction (`problem_solver_agent/utils.py`)

`extract_question_numbers` runs
`re.findall(r'^\s*(\d+)[.\s、]', text, re.MULTILINE)` and returns
`sorted(list(set(map(int, matches))))`.  With `re.MULTILINE` the anchor `^`
matches at the start of the text and after every newline; since neither a
whitespace character nor a digit can serve double duty, the regex engine's
behaviour on each anchor position is deterministic: skip the maximal
whitespace run, require a non-empty maximal digit run, then require one
delimiter character from the class `[.\s、]` — which, when the digit run ends
a line, may be the terminating newline itself.  The set of captured numeric
values is therefore exactly the set of values contributed line by line,
where a line's digit run at end-of-line counts only if the line is
terminated by a newline. -/

/-- The characters matched by the regex class `\s` (the inputs at issue are
ASCII, where `\s` is exactly these six characters). -/
def isPyWs (c : Char) : Bool :=
  c == ' ' || c == '\t' || c == '\n' || c == '\r' || c == '\x0B' || c == '\x0C'

/-- One character of the regex class `[.\s、]`. -/
def isDelimChar (c : Char) : Bool :=
  c == '.' || isPyWs c || c == '、'

/-- `int(...)` on a captured digit run. -/
def natOfDigits (ds : List Char) : Nat :=
  ds.foldl (fun n c => n * 10 + (c.toNat - '0'.toNat)) 0

/-- Split a text into its lines, each paired with `true` when the line is
terminated by a newline character (the final segment carries `false`). -/
def splitLines : List Char → List (List Char × Bool)
  | [] => [([], false)]
  | c :: rest =>
    if c = '\n' then ([], true) :: splitLines rest
    else
      match splitLines rest with
      | [] => [([c], false)]
      | (l, b) :: ls => (c :: l, b) :: ls

/-- Whether the position right after the digit run provides the required
`[.\s、]` delimiter: either the next character of the line is in the class,
or the digits reach the end of a newline-terminated line (the newline
itself is in `\s` and serves as the delimiter). -/
def delimiterOk (after : List Char) (terminated : Bool) : Bool :=
  match after with
  | c :: _ => isDelimChar c
  | [] => terminated

/-- The value captured from one line by `^\s*(\d+)[.\s、]`: skip leading
whitespace, take the maximal digit run (which must be non-empty), then
require a delimiter. -/
def lineValue (line : List Char) (terminated : Bool) : Option Nat :=
  let rest := line.dropWhile isPyWs
  let ds := rest.takeWhile Char.isDigit
  if ds.isEmpty then none
  else if delimiterOk (rest.dropWhile Char.isDigit) terminated then some (natOfDigits ds)
  else none

/-- `problem_solver_agent/utils.extract_question_numbers`: the distinct
captured values, deduplicated and sorted ascending
(`sorted(list(set(map(int, matches))))`). -/
def extract_question_numbers (text : String) : List Nat :=
  List.insertionSort (· ≤ ·)
    (((splitLines text.data).filterMap (fun p => lineValue p.1 p.2)).dedup)

/-- The number-prefix formatter of `problem_solver_agent/utils.py`
(camel-cased here): a single number is rendered as itself; otherwise, when
`numbers[-1] - numbers[0] == len(numbers) - 1`, as `first-last`; otherwise
as a comma-joined list. -/
def formatNumberPrefix (numbers : List Nat) : String :=
  match numbers with
  | [] => ""
  | [n] => toString n
  | n :: rest =>
    let lastN := rest.getLastD n
    if (lastN : Int) - (n : Int) = ((n :: rest).length : Int) - 1 then
      toString n ++ "-" ++ toString lastN
    else
      String.intercalate "," ((n :: rest).map toString)

/-- The delimiter set exactly as the claim words it: a period, a space, or
the full-width enumeration comma — wordings to be compared against the
implemented class `[.\s、]`. -/
def claimDelimChar (c : Char) : Bool :=
  c == '.' || c == ' ' || c == '、'

/-- The delimiter test under the claim's wording: the character following
the digits must itself be a period, a space, or `、` (no other whitespace
character, no terminating line break). -/
def claimDelimiterOk (after : List Char) : Bool :=
  match after with
  | c :: _ => claimDelimChar c
  | [] => false

/-- The value a line contributes under the claim's wording. -/
def claimLineValue (line : List Char) : Option Nat :=
  let rest := line.dropWhile isPyWs
  let ds := rest.takeWhile Char.isDigit
  if ds.isEmpty then none
  else if claimDelimiterOk (rest.dropWhile Char.isDigit) then some (natOfDigits ds)
  else none

/-- Question-number extraction as described by the claim's words. -/
def claimExtract (text : String) : List Nat :=
  List.insertionSort (· ≤ ·)
    (((splitLines text.data).filterMap (fun p => claimLineValue p.1)).dedup)

/-! ## Longest-overlap text merge (`utils.merge_transcribed_texts`)

`merge_transcribed_texts` folds over the fragments, at each step running
`SequenceMatcher(None, prev, curr, autojunk=False).get_matching_blocks()`,
scanning the blocks (the `[(la, lb, 0)]` sentinel dropped) for the first
one that ends exactly at the end of `prev` and starts exactly at the start
of `curr`; when such a block of size at least 20 is found, only
`curr[size:]` is appended, otherwise the fragments are joined with a
blank-line separator.

With no junk (`isjunk=None`, `autojunk=False`), difflib's
`find_longest_match` returns the longest matching block of the region,
preferring the earliest start in `a` and then the earliest start in `b`;
this is reproduced below as a fold over the region's positions in
lexicographic order that replaces the best candidate only on a strictly
larger run length.  `get_matching_blocks` recurses on the sub-regions to
the lower-left and upper-right of each chosen block, sorts the result
(the in-order recursion below emits them already sorted), merges adjacent
blocks, and appends the sentinel. -/

/-- Length of the common prefix of two character lists. -/
def commonRun : List Char → List Char → Nat
  | x :: xs, y :: ys => if x = y then commonRun xs ys + 1 else 0
  | _, _ => 0

/-- The length of the matching run starting at positions `(i, j)`, truncated
to the region ending at `(ahi, bhi)`. -/
def runAt (a b : List Char) (ahi bhi i j : Nat) : Nat :=
  commonRun ((a.drop i).take (ahi - i)) ((b.drop j).take (bhi - j))

/-- One step of the longest-match scan: replace the best `(i, j, size)`
candidate only on a strictly larger run length, so the first position (in
lexicographic order) achieving the maximum is kept — difflib's
earliest-in-`a`, then earliest-in-`b` preference. -/
def flmStep (a b : List Char) (ahi bhi : Nat) (best : Nat × Nat × Nat)
    (ij : Nat × Nat) : Nat × Nat × Nat :=
  let k := runAt a b ahi bhi ij.1 ij.2
  if best.2.2 < k then (ij.1, ij.2, k) else best

/-- difflib `SequenceMatcher.find_longest_match` on the region
`a[alo:ahi]`, `b[blo:bhi]` (no junk): the longest matching block,
earliest in `a` then in `b`; `(alo, blo, 0)` when the region has no
common element.  As in difflib's `b2j`-indexed loop, for each `i` only the
positions `j` whose character equals `a[i]` are scanned: a pair of
differing characters has run length 0 and can never replace the best
candidate, so this equals the scan of the full rectangle. -/
def find_longest_match (a b : List Char) (alo ahi blo bhi : Nat) : Nat × Nat × Nat :=
  ((List.range' alo (ahi - alo)).flatMap
    (fun i => ((List.range' blo (bhi - blo)).filter
      (fun j => a[i]? = b[j]?)).map (fun j => (i, j)))).foldl
    (flmStep a b ahi bhi) (alo, blo, 0)

/-- The recursive block collection of `get_matching_blocks`: pick the
longest match of the region, recurse on the region before it and the
region after it.  `fuel` dominates the recursion depth (each sub-region is
strictly smaller). -/
def matchingBlocksFuel (a b : List Char) :
    Nat → Nat → Nat → Nat → Nat → List (Nat × Nat × Nat)
  | 0, _, _, _, _ => []
  | fuel + 1, alo, ahi, blo, bhi =>
    let t := find_longest_match a b alo ahi blo bhi
    if t.2.2 = 0 then []
    else
      matchingBlocksFuel a b fuel alo t.1 blo t.2.1
        ++ t :: matchingBlocksFuel a b fuel (t.1 + t.2.2) ahi (t.2.1 + t.2.2) bhi

/-- The second pass of `get_matching_blocks`: merge adjacent blocks
(`i1 + k1 == i2 and j1 + k1 == j2`), starting from the `(0, 0, 0)`
accumulator and dropping zero-sized accumulated blocks. -/
def collapseGo : Nat × Nat × Nat → List (Nat × Nat × Nat) → List (Nat × Nat × Nat)
  | acc, [] => if acc.2.2 ≠ 0 then [acc] else []
  | acc, x :: rest =>
    if acc.1 + acc.2.2 = x.1 ∧ acc.2.1 + acc.2.2 = x.2.1 then
      collapseGo (acc.1, acc.2.1, acc.2.2 + x.2.2) rest
    else
      (if acc.2.2 ≠ 0 then [acc] else []) ++ collapseGo x rest

/-- difflib `SequenceMatcher.get_matching_blocks` (no junk): the sorted,
adjacency-merged matching blocks, ending with the `(len(a), len(b), 0)`
sentinel. -/
def get_matching_blocks (a b : List Char) : List (Nat × Nat × Nat) :=
  collapseGo (0, 0, 0)
      (matchingBlocksFuel a b (a.length + b.length + 1) 0 a.length 0 b.length)
    ++ [(a.length, b.length, 0)]

/-- The scan in `merge_transcribed_texts`: the first block (in list order)
that ends exactly at the end of `prev` (`match.a + match.size ==
len(prev_text)`) and starts exactly at the start of `curr`
(`match.b == 0`); its size, or `0` when no block qualifies. -/
def findPerfectOverlap : List (Nat × Nat × Nat) → Nat → Nat
  | [], _ => 0
  | t :: rest, lenPrev =>
    if t.1 + t.2.2 = lenPrev ∧ t.2.1 = 0 then t.2.2
    else findPerfectOverlap rest lenPrev

/-- `best_overlap_size` for one merge step: scan
`get_matching_blocks(...)[:-1]`. -/
def bestOverlapSize (prev curr : List Char) : Nat :=
  findPerfectOverlap ((get_matching_blocks prev curr).dropLast) prev.length

/-- `MIN_OVERLAP_LENGTH = 20` in `merge_transcribed_texts`. -/
def MIN_OVERLAP_LENGTH : Nat := 20

/-- One merge step of `merge_transcribed_texts`: when the perfect
suffix-prefix block is at least `MIN_OVERLAP_LENGTH`, append only the
non-overlapping remainder `curr[best_overlap_size:]`; otherwise join with
the blank-line separator `"\n\n"`. -/
def mergeStep (prev curr : List Char) : List Char :=
  let k := bestOverlapSize prev curr
  if MIN_OVERLAP_LENGTH ≤ k then prev ++ curr.drop k
  else prev ++ '\n' :: '\n' :: curr

/-- `utils.merge_transcribed_texts`: fold the merge step over the ordered
fragments (empty input merges to the empty text). -/
def merge_transcribed_texts : List (List Char) → List Char
  | [] => []
  | t :: ts => ts.foldl mergeStep t

/-- A block `(i, j, size)` is a genuine match within the two texts. -/
def ValidBlock (a b : List Char) (t : Nat × Nat × Nat) : Prop :=
  (a.drop t.1).take t.2.2 = (b.drop t.2.1).take t.2.2
  ∧ t.1 + t.2.2 ≤ a.length ∧ t.2.1 + t.2.2 ≤ b.length

/-- A 21-character block, longer than the 20-character overlap below. -/
def c6mask : List Char := "ABCDEFGHIJKLMNOPQRSTU".data

/-- A 20-character overlap, exactly the minimum qualifying length. -/
def c6olap : List Char := "abcdefghijklmnopqrst".data

/-- Short distinct padding fragments for the witness. -/
def c6x : List Char := "xyz".data

/-- Short distinct padding fragments for the witness. -/
def c6y : List Char := "123".data

/-- The decomposition-level description of a line matched by
`^\s*(\d+)[.\s、]`: optional leading whitespace, a non-empty digit run, then
either a delimiter character or the line's terminating newline. -/
def LineYields (line : List Char) (terminated : Bool) (n : Nat) : Prop :=
  ∃ ws ds rest, line = ws ++ ds ++ rest
    ∧ (∀ c ∈ ws, isPyWs c = true)
    ∧ ds ≠ []
    ∧ (∀ c ∈ ds, c.isDigit = true)
    ∧ delimiterOk rest terminated = true
    ∧ n = natOfDigits ds

/-! ## The per-task pipeline (`image_grouper._execute_pipeline`)

The pipeline's filesystem-visible behaviour is modelled as the ordered
trace of its effects.  The outcomes of the external calls it makes
(classification, textualization, the response stream, per-image existence
at archive time) are parameters of one environment record; header metadata
(solver identity, worker name, transcript text) and the synthesized final
filename are not tracked, since no claim depends on them — the rename to
the final name appears as one `renameFinal` event, exactly where
`temp_solution_path.rename(final_solution_path)` executes. -/

/-- One filesystem-visible (or stream-visible) effect of a pipeline run:
creating the LockMarker (`lock_file_path.touch()`), opening the provisional
file (`open(temp_solution_path, 'w')`), writing its header
(`_write_solution_header`, flushed before streaming), receiving one chunk
from the response stream, writing the accumulated answer to the
provisional file (`f.write(final_answer)`), renaming the provisional file
to its final name, writing a FailureRecord (`_write_failure_log`),
deleting the provisional file, deleting the LockMarker, and moving one
source image to the archive. -/
inductive PipeEv
  | touchLock
  | createProvisional
  | writeHeader (finalProblemType : String)
  | recvChunk (c : String)
  | writeAnswer (s : String)
  | renameFinal
  | writeFailureLog
  | deleteProvisional
  | deleteLock
  | moveImage (idx : Nat)
  deriving DecidableEq, Repr

/-- Outcomes of the external calls made by one pipeline run. -/
structure PipeEnv where
  /-- `lock_file_path.exists()` at entry. -/
  lockExists : Bool
  /-- The result of `qwen_client.classify_problem_type` (always one of the
  six labels, but the model does not rely on that). -/
  problemType : String
  /-- The result of `_textualize_problem`; `none` when it raised. -/
  textualized : Option String
  /-- Whether the `config.PROMPT_TEMPLATES` lookup (plus the
  `SOLUTION_STYLE` sub-lookup for coding tags) produces a template. -/
  hasTemplate : Bool
  /-- The chunks yielded by the response stream (either
  `qwen_client.solve_visual_reasoning_problem` or
  `solver_client.stream_solve`; both yield their in-band error chunk
  rather than raising). -/
  chunks : List String
  /-- `img_path.exists()` for each group index at archive time. -/
  imageExists : Nat → Bool
  /-- The number of images in the group. -/
  numImages : Nat

/-- Python `str.strip()` produces the empty (falsy) string exactly when
every character is whitespace. -/
def strippedEmpty (s : String) : Bool :=
  s.data.all isPyWs

/-- The validation at `image_grouper.py` line 311, as a predicate the
accumulated answer must pass for the run to proceed to the rename:
`not final_answer.strip() or "--- ERROR ---" in final_answer` raises. -/
def answer_valid (final_answer : String) : Bool :=
  !(strippedEmpty final_answer) && !(pyInStr "--- ERROR ---" final_answer)

/-- The inline terminal-error chunk yielded by `qwen_client`'s
`error_generator` (`qwen_client.py` line 111). -/
def qwenErrorChunk : String :=
  "\n\n--- ERROR in qwen_client: All retries failed. ---\n"

/-- The in-band error marker format of the superseded top-level
`solver_client.py` (V2.4, line 141), which the validation's literal
`"--- ERROR ---"` does match. -/
def legacyErrorChunk (msg : String) : String :=
  "\n\n--- ERROR ---\n" ++ msg ++ "\n--- END ERROR ---\n"

/-- The textualization gate at `image_grouper.py` lines 264-266: the step
runs for every one of the six labels. -/
def textualizeTypes : List String :=
  ["CODING", "GENERAL", "QUESTION_ANSWERING", "VISUAL_REASONING",
   "MULTIPLE_CHOICE", "FILL_IN_THE_BLANKS"]

/-- Step 5 archiving: move each source image that still exists
(`if img_path.exists()`), in group order. -/
def archiveEvents (env : PipeEnv) : List PipeEv :=
  (List.range env.numImages).filterMap
    (fun i => if env.imageExists i then some (PipeEv.moveImage i) else none)

/-- The `finally` block: delete the LockMarker (it was created by this run,
which is the only reachable case in the model), then archive. -/
def cleanupEvents (env : PipeEnv) : List PipeEv :=
  PipeEv.deleteLock :: archiveEvents env

/-- Steps 3-5 from the header write on: write the header (flushed), drain
the response stream into the in-memory list (`final_answer_chunks = [chunk
for chunk in response_stream]`), write the joined answer to the provisional
file in one `f.write(final_answer)`, validate, and either rename to the
final name or write a FailureRecord and delete the provisional file;
cleanup always follows. -/
def streamAndFinish (env : PipeEnv) (finalType : String) : List PipeEv :=
  let ans := String.join env.chunks
  PipeEv.writeHeader finalType ::
    (env.chunks.map PipeEv.recvChunk ++
      PipeEv.writeAnswer ans ::
        (if answer_valid ans then
          PipeEv.renameFinal :: cleanupEvents env
        else
          PipeEv.writeFailureLog :: PipeEv.deleteProvisional :: cleanupEvents env))

/-- `image_grouper._execute_pipeline` as its effect trace: a present
LockMarker makes the run return before the `try` (no effects at all);
otherwise the lock is created, textualization runs for the six labels (a
raise aborts to the failure path before any provisional file exists), the
provisional file is opened, and the run branches into the visual solve or
the routed textual solve (a missing prompt template raises inside the
`with` block, after which the provisional file exists and is deleted). -/
def execute_pipeline (env : PipeEnv) : List PipeEv :=
  if env.lockExists then []
  else
    PipeEv.touchLock ::
      (if env.problemType ∈ textualizeTypes ∧ env.textualized = none then
        PipeEv.writeFailureLog :: cleanupEvents env
      else
        let transcribed :=
          if env.problemType ∈ textualizeTypes then env.textualized.getD "N/A"
          else "N/A"
        PipeEv.createProvisional ::
          (if env.problemType = "VISUAL_REASONING" then
            streamAndFinish env "VISUAL_REASONING"
          else
            if env.hasTemplate then
              streamAndFinish env
                (if env.problemType = "CODING" then refine_coding transcribed
                 else env.problemType)
            else
              PipeEv.writeFailureLog :: PipeEv.deleteProvisional ::
                cleanupEvents env))

/-- Whether an event is a chunk receive. -/
def isRecv : PipeEv → Bool
  | .recvChunk _ => true
  | _ => false

/-- Whether an event writes answer text to the provisional file. -/
def isAnswerWrite : PipeEv → Bool
  | .writeAnswer _ => true
  | _ => false

/-- A concrete environment for the C7 counterexample: an ordinary GENERAL
task whose stream yields two chunks. -/
def envC7 : PipeEnv where
  lockExists := false
  problemType := "GENERAL"
  textualized := some "Problem text"
  hasTemplate := true
  chunks := ["Hello ", "world"]
  imageExists := fun _ => true
  numImages := 1

/-- A concrete environment for C1: the solver exhausted its retries, so the
stream is exactly the in-band terminal-error chunk. -/
def envC1 : PipeEnv where
  lockExists := false
  problemType := "GENERAL"
  textualized := some "Problem text"
  hasTemplate := true
  chunks := [solverErrorChunk "deepseek-reasoner"]
  imageExists := fun _ => true
  numImages := 1

/-- The C7 environment with the LockMarker already present, for C2. -/
def envC2 : PipeEnv where
  lockExists := true
  problemType := "GENERAL"
  textualized := some "Problem text"
  hasTemplate := true
  chunks := ["Hello ", "world"]
  imageExists := fun _ => true
  numImages := 1

end ProblemSolverAgent

namespace ProblemSolverAgent

/-! ## Claim C4 -/

/-- **C4**: for every classifier response, `classify_problem_type` returns the
response itself when it is exactly one of the six literal labels, returns
`GENERAL` for any other string and for an absent/failed response, and its
result is always a member of the closed six-label set. -/
theorem C4_classification_default (response : Option String) :
    (∀ r, response = some r → r ∈ validTypes → classify_problem_type response = r)
    ∧ (∀ r, response = some r → r ∉ validTypes → classify_problem_type response = "GENERAL")
    ∧ (response = none → classify_problem_type response = "GENERAL")
    ∧ classify_problem_type response ∈ validTypes := by
  refine ⟨?_, ?_, ?_, ?_⟩
  · rintro r rfl hr
    simp only [classify_problem_type, if_pos hr]
  · rintro r rfl hr
    simp only [classify_problem_type, if_neg hr]
  · rintro rfl
    rfl
  · cases response with
    | none =>
      show "GENERAL" ∈ validTypes
      decide
    | some r =>
      by_cases hr : r ∈ validTypes
      · simpa only [classify_problem_type, if_pos hr] using hr
      · simp only [classify_problem_type, if_neg hr]
        decide

/-- Witness for C4 at concrete inputs: a valid label is returned verbatim, an
off-set response and a failed call both default to `GENERAL`. -/
theorem C4_classification_default_witness :
    classify_problem_type (some "CODING") = "CODING"
    ∧ classify_problem_type (some "banana") = "GENERAL"
    ∧ classify_problem_type none = "GENERAL" :=
  ⟨(C4_classification_default (some "CODING")).1 "CODING" rfl (by decide),
   (C4_classification_default (some "banana")).2.1 "banana" rfl (by decide),
   (C4_classification_default none).2.2.1 rfl⟩

/-! ## Claim C5 -/

/-- **C5**: for every composite transcript of a task classified `CODING`, the
refined classification is `LEETCODE` exactly when the lowercased transcript
contains the substring `"leetcode"` (i.e. some decomposition
`l ++ "leetcode" ++ r` exists), and `ACM` otherwise; the refined tag always
selects the coding solver-routing family. -/
theorem C5_coding_subclassification (t : String) :
    (refine_coding t = "LEETCODE" ↔
      ∃ l r : List Char, l ++ "leetcode".data ++ r = (pyLower t).data)
    ∧ (refine_coding t = "LEETCODE" ∨ refine_coding t = "ACM")
    ∧ solver_routing_family (refine_coding t) = "CODING_SOLVER" := by
  have hinfix : pyInStr "leetcode" (pyLower t) = true ↔
      ∃ l r : List Char, l ++ "leetcode".data ++ r = (pyLower t).data := by
    rw [pyInStr, decide_eq_true_iff]
    exact Iff.rfl
  refine ⟨?_, ?_, ?_⟩
  · constructor
    · intro h
      apply hinfix.mp
      by_contra hc
      rw [refine_coding] at h
      rw [Bool.not_eq_true] at hc
      rw [hc] at h
      exact absurd h (by decide)
    · intro h
      rw [refine_coding, hinfix.mpr h]
      rfl
  · rw [refine_coding]
    by_cases h : pyInStr "leetcode" (pyLower t) <;> simp [h]
  · rw [refine_coding]
    by_cases h : pyInStr "leetcode" (pyLower t) <;>
      simp only [h, if_true, if_false, Bool.false_eq_true, solver_routing_family] <;>
      decide

/-- Witness for C5 at concrete transcripts: a transcript mentioning
`LeetCode` (any case) refines to `LEETCODE`; a transcript without the
substring refines to `ACM`; both select a coding-family route. -/
theorem C5_coding_subclassification_witness :
    refine_coding "Solve this LeetCode problem" = "LEETCODE"
    ∧ refine_coding "read input from stdin" = "ACM"
    ∧ solver_routing_family (refine_coding "read input from stdin") = "CODING_SOLVER" := by
  refine ⟨?_, ?_, ?_⟩
  · exact (C5_coding_subclassification "Solve this LeetCode problem").1.mpr
      ⟨"solve this ".data, " problem".data, by decide⟩
  · have h := (C5_coding_subclassification "read input from stdin").2.1
    rcases h with h | h
    · exfalso
      rcases (C5_coding_subclassification "read input from stdin").1.mp h with ⟨l, r, hlr⟩
      have hmem : pyInStr "leetcode" (pyLower "read input from stdin") = true := by
        rw [pyInStr, decide_eq_true_iff]
        exact ⟨l, r, hlr⟩
      exact absurd hmem (by decide)
    · exact h
  · exact (C5_coding_subclassification "read input from stdin").2.2

/-! ## Claim C9 -/

/-- **C9**: `_move_file_with_retry` performs between 1 and 3 `shutil.move`
attempts, sleeps the fixed delay exactly once between consecutive attempts
(`sleeps + 1 = attempts`), returns success immediately on the attempt where
the source file is found to have disappeared (`FileNotFoundError`), and
returns failure only after all 3 attempts erred. -/
theorem C9_archive_move_retry (env : Nat → MoveOutcome) :
    (1 ≤ (move_file_with_retry env).2.1 ∧ (move_file_with_retry env).2.1 ≤ 3
      ∧ (move_file_with_retry env).2.2 + 1 = (move_file_with_retry env).2.1)
    ∧ (env 0 = MoveOutcome.ok → move_file_with_retry env = (true, 1, 0))
    ∧ (env 0 = MoveOutcome.notFound → move_file_with_retry env = (true, 1, 0))
    ∧ (env 0 = MoveOutcome.err → env 1 = MoveOutcome.notFound →
        move_file_with_retry env = (true, 2, 1))
    ∧ (env 0 = MoveOutcome.err → env 1 = MoveOutcome.err → env 2 = MoveOutcome.notFound →
        move_file_with_retry env = (true, 3, 2))
    ∧ (env 0 = MoveOutcome.err → env 1 = MoveOutcome.err → env 2 = MoveOutcome.err →
        move_file_with_retry env = (false, 3, 2)) := by
  refine ⟨?_, ?_, ?_, ?_, ?_, ?_⟩
  · cases h0 : env 0 <;> [skip; skip; cases h1 : env 1] <;>
      [simp [move_file_with_retry, moveRetryGo, h0];
       simp [move_file_with_retry, moveRetryGo, h0];
       simp [move_file_with_retry, moveRetryGo, h0, h1];
       simp [move_file_with_retry, moveRetryGo, h0, h1];
       cases h2 : env 2 <;> simp [move_file_with_retry, moveRetryGo, h0, h1, h2]]
  · intro h0
    simp [move_file_with_retry, moveRetryGo, h0]
  · intro h0
    simp [move_file_with_retry, moveRetryGo, h0]
  · intro h0 h1
    simp [move_file_with_retry, moveRetryGo, h0, h1]
  · intro h0 h1 h2
    simp [move_file_with_retry, moveRetryGo, h0, h1, h2]
  · intro h0 h1 h2
    simp [move_file_with_retry, moveRetryGo, h0, h1, h2]

/-- Witness for C9: a first attempt that errs followed by a disappeared
source file yields success after exactly 2 attempts and 1 fixed-delay
sleep. -/
theorem C9_archive_move_retry_witness :
    move_file_with_retry
      (fun i => if i = 0 then MoveOutcome.err else MoveOutcome.notFound) = (true, 2, 1) :=
  (C9_archive_move_retry
    (fun i => if i = 0 then MoveOutcome.err else MoveOutcome.notFound)).2.2.2.1 rfl rfl

/-! ## Claim C3 -/

/-- Evaluation of the `stream_solve` retry loop when every attempt raises a
connectivity/timeout-class error. -/
theorem streamSolveGo_allConn (env : Nat → SolveAttempt) (model : String) (N : Nat)
    (h : ∀ i, env i = SolveAttempt.connError) :
    ∀ fuel i sleeps, 1 ≤ fuel → i + fuel = N + 1 →
      streamSolveGo env model N fuel i sleeps
        = ([solverErrorChunk model], N + 1, sleeps + (fuel - 1))
  | 0, _, _, hf, _ => absurd hf (by omega)
  | 1, i, sleeps, _, hi => by
    have hiN : i = N := by omega
    subst hiN
    have hnot : ¬ i < i := by omega
    simp [streamSolveGo, h i, hnot]
  | fuel + 2, i, sleeps, _, hi => by
    have hlt : i < N := by omega
    have ih := streamSolveGo_allConn env model N h (fuel + 1) (i + 1) (sleeps + 1)
      (by omega) (by omega)
    conv_lhs => rw [streamSolveGo]
    simp only [h i, hlt, if_true, ite_true]
    rw [ih]
    have harith : sleeps + 1 + (fuel + 1 - 1) = sleeps + (fuel + 2 - 1) := by omega
    rw [harith]

/-- **C3**: for every configured maximum retry count `N`, a streaming solve
against a provider raising a connectivity/timeout-class error on every call
performs exactly `N + 1` request attempts (1 initial + `N` retries) with a
fixed-delay sleep between consecutive attempts (`N` sleeps of
`RETRY_DELAY`), and returns the stream consisting of the single in-band
terminal-error chunk naming the failed model instead of raising. -/
theorem C3_retry_exhaustion (N : Nat) (model : String) (env : Nat → SolveAttempt)
    (h : ∀ i, env i = SolveAttempt.connError) :
    stream_solve env model N = ([solverErrorChunk model], N + 1, N) := by
  have hmain := streamSolveGo_allConn env model N h (N + 1) 0 0 (by omega) (by omega)
  simpa [stream_solve] using hmain

/-- Witness for C3 at the spec's instance: maximum retry count 2 gives
exactly 3 attempts, 2 fixed-delay sleeps, and the single terminal-error
chunk naming the model. -/
theorem C3_retry_exhaustion_witness :
    stream_solve (fun _ => SolveAttempt.connError) "deepseek-chat" 2
      = ([solverErrorChunk "deepseek-chat"], 3, 2) :=
  C3_retry_exhaustion 2 "deepseek-chat" (fun _ => SolveAttempt.connError) (fun _ => rfl)

/-! ## Claim C10 -/

/-- The stream returned by the retry loop is either the chunks of some
successful attempt or the single terminal-error chunk. -/
theorem streamSolveGo_total (env : Nat → SolveAttempt) (model : String) (N : Nat) :
    ∀ fuel i sleeps, i ≤ N →
      (streamSolveGo env model N fuel i sleeps).1 = [solverErrorChunk model]
      ∨ ∃ j cs, j ≤ N ∧ env j = SolveAttempt.success cs
          ∧ (streamSolveGo env model N fuel i sleeps).1 = cs
  | 0, _, _, _ => Or.inl rfl
  | fuel + 1, i, sleeps, hi => by
    cases h : env i with
    | success cs =>
      exact Or.inr ⟨i, cs, hi, h, by simp [streamSolveGo, h]⟩
    | connError =>
      by_cases hlt : i < N
      · have ih := streamSolveGo_total env model N fuel (i + 1) (sleeps + 1) (by omega)
        simpa [streamSolveGo, h, hlt] using ih
      · simp [streamSolveGo, h, hlt]
    | fatal =>
      simp [streamSolveGo, h]

/-- **C10**: `stream_solve` never propagates an exception: a non-retryable
exception on the first attempt (any authentication/request error, and in
particular a failed `get_client` due to a missing provider configuration or
missing credential, which makes every attempt raise) yields the single
in-band terminal-error chunk after exactly one attempt; and in general the
caller always receives a stream — either some attempt's successful chunks
or the terminal-error chunk. -/
theorem C10_always_returns_stream (env : Nat → SolveAttempt) (N : Nat) (model : String) :
    (env 0 = SolveAttempt.fatal →
      stream_solve env model N = ([solverErrorChunk model], 1, 0))
    ∧ (∀ pc kp net, get_client_ok pc kp = false →
        stream_solve (clientEnv (get_client_ok pc kp) net) model N
          = ([solverErrorChunk model], 1, 0))
    ∧ ((stream_solve env model N).1 = [solverErrorChunk model]
       ∨ ∃ j cs, j ≤ N ∧ env j = SolveAttempt.success cs
           ∧ (stream_solve env model N).1 = cs) := by
  refine ⟨?_, ?_, ?_⟩
  · intro h0
    simp [stream_solve, streamSolveGo, h0]
  · intro pc kp net hcl
    have h0 : clientEnv (get_client_ok pc kp) net 0 = SolveAttempt.fatal := by
      simp [clientEnv, hcl]
    simp [stream_solve, streamSolveGo, h0]
  · exact streamSolveGo_total env model N (N + 1) 0 0 (by omega)

/-! ## Claim C8 -/

/-- `List.dropWhile` ignores a prefix on which the predicate holds. -/
theorem dropWhile_append_all {α} (p : α → Bool) :
    ∀ (ws l : List α), (∀ a ∈ ws, p a = true) →
      List.dropWhile p (ws ++ l) = List.dropWhile p l := by
  intro ws
  induction ws with
  | nil => intro l _; rfl
  | cons a t ih =>
    intro l h
    have ha : p a = true := h a (List.mem_cons_self a t)
    have ht := ih l (fun b hb => h b (List.mem_cons_of_mem a hb))
    simp [List.dropWhile_cons, ha, ht]

/-- `List.dropWhile` is the identity when the head already fails the
predicate. -/
theorem dropWhile_eq_self_of_head {α} (p : α → Bool) (l : List α)
    (h : ∀ c, l.head? = some c → p c = false) : List.dropWhile p l = l := by
  cases l with
  | nil => rfl
  | cons a t => simp [List.dropWhile_cons, h a rfl]

/-- `takeWhile`/`dropWhile` split an append at the boundary where the
predicate stops holding. -/
theorem takeWhile_dropWhile_append {α} (p : α → Bool) :
    ∀ (ds l : List α), (∀ a ∈ ds, p a = true) →
      (∀ c, l.head? = some c → p c = false) →
      List.takeWhile p (ds ++ l) = ds ∧ List.dropWhile p (ds ++ l) = l := by
  intro ds
  induction ds with
  | nil =>
    intro l _ h
    refine ⟨?_, dropWhile_eq_self_of_head p l h⟩
    cases l with
    | nil => rfl
    | cons a t => simp [List.takeWhile_cons, h a rfl]
  | cons a t ih =>
    intro l h hl
    have ha : p a = true := h a (List.mem_cons_self a t)
    obtain ⟨h1, h2⟩ := ih l (fun b hb => h b (List.mem_cons_of_mem a hb)) hl
    simp [List.takeWhile_cons, List.dropWhile_cons, ha, h1, h2]

/-- A digit character is not a `\s` character. -/
theorem not_ws_of_digit {c : Char} (h : c.isDigit = true) : isPyWs c = false := by
  by_contra hw
  rw [Bool.not_eq_false] at hw
  simp only [isPyWs, Bool.or_eq_true, beq_iff_eq] at hw
  rcases hw with ((((rfl | rfl) | rfl) | rfl) | rfl) | rfl <;> exact absurd h (by decide)

/-- A `[.\s、]` delimiter character is not a digit. -/
theorem not_digit_of_delim {c : Char} (h : isDelimChar c = true) : c.isDigit = false := by
  simp only [isDelimChar, isPyWs, Bool.or_eq_true, beq_iff_eq] at h
  rcases h with (rfl | ((((rfl | rfl) | rfl) | rfl) | rfl) | rfl) | rfl <;> exact (by decide)

/-- `lineValue` captures `n` from a line exactly when the line decomposes as
optional whitespace, a non-empty digit run of value `n`, and a delimiter
(or the line's terminating newline). -/
theorem lineValue_eq_some_iff (line : List Char) (terminated : Bool) (n : Nat) :
    lineValue line terminated = some n ↔ LineYields line terminated n := by
  constructor
  · intro h
    simp only [lineValue] at h
    by_cases hne : ((line.dropWhile isPyWs).takeWhile Char.isDigit).isEmpty
    · rw [if_pos hne] at h
      exact absurd h (by simp)
    · rw [if_neg hne] at h
      by_cases hd : delimiterOk ((line.dropWhile isPyWs).dropWhile Char.isDigit) terminated
      · rw [if_pos hd] at h
        have hds : ((line.dropWhile isPyWs).takeWhile Char.isDigit) ≠ [] := by
          intro hnil
          exact hne (by simp [hnil])
        have hsplit : line = (line.takeWhile isPyWs
            ++ (line.dropWhile isPyWs).takeWhile Char.isDigit)
              ++ (line.dropWhile isPyWs).dropWhile Char.isDigit := by
          rw [List.append_assoc, List.takeWhile_append_dropWhile,
            List.takeWhile_append_dropWhile]
        exact ⟨line.takeWhile isPyWs,
          (line.dropWhile isPyWs).takeWhile Char.isDigit,
          (line.dropWhile isPyWs).dropWhile Char.isDigit,
          hsplit,
          fun c hc => List.mem_takeWhile_imp hc,
          hds,
          fun c hc => List.mem_takeWhile_imp hc,
          hd,
          (Option.some_injective _ h).symm⟩
      · rw [if_neg hd] at h
        exact absurd h (by simp)
  · rintro ⟨ws, ds, rest, rfl, hws, hne, hdig, hcond, rfl⟩
    have hresthead : ∀ c, rest.head? = some c → Char.isDigit c = false := by
      intro c hc
      cases rest with
      | nil => exact absurd hc (by simp)
      | cons r rs =>
        have hr : r = c := by simpa using hc
        subst hr
        exact not_digit_of_delim hcond
    have h1 : ((ws ++ ds ++ rest).dropWhile isPyWs) = ds ++ rest := by
      rw [List.append_assoc, dropWhile_append_all isPyWs ws (ds ++ rest) hws]
      apply dropWhile_eq_self_of_head
      intro c hc
      cases ds with
      | nil => exact absurd rfl hne
      | cons d dt =>
        have hd : d = c := by simpa using hc
        subst hd
        exact not_ws_of_digit (hdig d (List.mem_cons_self d dt))
    obtain ⟨h2, h3⟩ := takeWhile_dropWhile_append Char.isDigit ds rest hdig hresthead
    simp only [lineValue, h1, h2, h3]
    cases ds with
    | nil => exact absurd rfl hne
    | cons d dt => simp [hcond]

/-- **C8 (amended)**: extraction returns exactly the distinct numeric values
of lines that begin (after optional leading whitespace) with one or more
digits followed by a period, a whitespace character (including the line's
terminating newline), or a full-width `、`, deduplicated and sorted
ascending; and for every sorted list of distinct integers, prefix
formatting renders a singleton as the number itself, a contiguous run
(`last − first == count − 1`) as `first-last`, and any other set as a
comma-joined list. -/
theorem C8_extraction_and_formatting (t : String) (ns : List Nat)
    (hsorted : List.Sorted (· < ·) ns) :
    List.Sorted (· ≤ ·) (extract_question_numbers t)
    ∧ (extract_question_numbers t).Nodup
    ∧ (∀ n, n ∈ extract_question_numbers t ↔
        ∃ p ∈ splitLines t.data, LineYields p.1 p.2 n)
    ∧ (∀ n, ns = [n] → formatNumberPrefix ns = toString n)
    ∧ (∀ a b tl, ns = a :: b :: tl →
        ((((b :: tl).getLastD a : Int) - (a : Int) = ((a :: b :: tl).length : Int) - 1 →
          formatNumberPrefix ns
            = toString a ++ "-" ++ toString ((b :: tl).getLastD a))
        ∧ (((b :: tl).getLastD a : Int) - (a : Int) ≠ ((a :: b :: tl).length : Int) - 1 →
          formatNumberPrefix ns = String.intercalate "," (ns.map toString)))) := by
  refine ⟨?_, ?_, ?_, ?_, ?_⟩
  · exact List.sorted_insertionSort (· ≤ ·) _
  · exact ((List.perm_insertionSort (· ≤ ·) _).nodup_iff).mpr (List.nodup_dedup _)
  · intro n
    rw [extract_question_numbers, (List.perm_insertionSort (· ≤ ·) _).mem_iff,
      List.mem_dedup, List.mem_filterMap]
    exact exists_congr fun p =>
      and_congr_right fun _ => lineValue_eq_some_iff p.1 p.2 n
  · rintro n rfl
    rfl
  · rintro a b tl rfl
    constructor
    · intro hrun
      simp only [formatNumberPrefix, if_pos hrun]
    · intro hrun
      simp only [formatNumberPrefix, if_neg hrun]

/-- Witness for C8 at the spec's own examples. -/
theorem C8_extraction_and_formatting_witness :
    extract_question_numbers "16. foo\n17. bar\n18. baz" = [16, 17, 18]
    ∧ formatNumberPrefix [16, 17, 18] = "16-18"
    ∧ formatNumberPrefix [1, 2, 5] = "1,2,5"
    ∧ formatNumberPrefix [21] = "21" := by
  refine ⟨by decide, ?_, ?_, ?_⟩
  · exact ((C8_extraction_and_formatting "" [16, 17, 18] (by decide)).2.2.2.2
      16 17 [18] rfl).1 (by decide)
  · exact ((C8_extraction_and_formatting "" [1, 2, 5] (by decide)).2.2.2.2
      1 2 [5] rfl).2 (by decide)
  · exact (C8_extraction_and_formatting "" [21] (by decide)).2.2.2.1 21 rfl

/-- **C8 counterexample**: the claim's delimiter set (period, space,
full-width comma) disagrees with the implemented regex class `[.\s、]` on
any other whitespace delimiter.  On `"12\tfoo"` the code extracts `[12]`
(tab is in `\s`), while extraction as the claim words it yields `[]`. -/
theorem C8_counterexample :
    extract_question_numbers "12\tfoo" = [12]
    ∧ claimExtract "12\tfoo" = []
    ∧ extract_question_numbers "12\tfoo" ≠ claimExtract "12\tfoo" := by
  refine ⟨by decide, by decide, by decide⟩

/-- Witness for C10: a missing-credential client failure and a fatal request
error each produce the terminal-error stream after one attempt, with no
exception. -/
theorem C10_always_returns_stream_witness :
    stream_solve (fun _ => SolveAttempt.fatal) "glm-4.5" 3
      = ([solverErrorChunk "glm-4.5"], 1, 0)
    ∧ stream_solve (clientEnv (get_client_ok false true) (fun _ => SolveAttempt.success ["ok"]))
        "glm-4.5" 3 = ([solverErrorChunk "glm-4.5"], 1, 0) :=
  ⟨(C10_always_returns_stream (fun _ => SolveAttempt.fatal) 3 "glm-4.5").1 rfl,
   (C10_always_returns_stream (fun _ => SolveAttempt.fatal) 3 "glm-4.5").2.1
     false true (fun _ => SolveAttempt.success ["ok"]) rfl⟩

/-! ## Claim C6 -/

/-- The common prefix length is bounded by the first list's length. -/
theorem commonRun_le_left : ∀ xs ys : List Char, commonRun xs ys ≤ xs.length
  | [], _ => by simp [commonRun]
  | _ :: _, [] => by simp [commonRun]
  | x :: xs, y :: ys => by
    rw [commonRun]
    by_cases h : x = y
    · rw [if_pos h]
      have := commonRun_le_left xs ys
      simpa using this
    · rw [if_neg h]
      exact Nat.zero_le _

/-- The common prefix length is bounded by the second list's length. -/
theorem commonRun_le_right : ∀ xs ys : List Char, commonRun xs ys ≤ ys.length
  | [], _ => by simp [commonRun]
  | _ :: _, [] => by simp [commonRun]
  | x :: xs, y :: ys => by
    rw [commonRun]
    by_cases h : x = y
    · rw [if_pos h]
      have := commonRun_le_right xs ys
      simpa using this
    · rw [if_neg h]
      exact Nat.zero_le _

/-- The prefixes of common-run length are equal. -/
theorem commonRun_take_eq : ∀ xs ys : List Char,
    xs.take (commonRun xs ys) = ys.take (commonRun xs ys)
  | [], ys => by simp [commonRun]
  | _ :: _, [] => by simp [commonRun]
  | x :: xs, y :: ys => by
    rw [commonRun]
    by_cases h : x = y
    · rw [if_pos h, List.take_succ_cons, List.take_succ_cons, h,
        commonRun_take_eq xs ys]
    · rw [if_neg h]
      simp

/-- A non-trivial run found by the scan is a genuine in-bounds match. -/
theorem runAt_valid (a b : List Char) (ahi bhi i j : Nat)
    (hk : runAt a b ahi bhi i j ≠ 0) :
    ValidBlock a b (i, j, runAt a b ahi bhi i j) := by
  have hkx := commonRun_le_left ((a.drop i).take (ahi - i)) ((b.drop j).take (bhi - j))
  have hky := commonRun_le_right ((a.drop i).take (ahi - i)) ((b.drop j).take (bhi - j))
  have htake := commonRun_take_eq ((a.drop i).take (ahi - i)) ((b.drop j).take (bhi - j))
  rw [List.length_take, List.length_drop] at hkx
  rw [List.length_take, List.length_drop] at hky
  rw [List.take_take, List.take_take] at htake
  have heq : runAt a b ahi bhi i j
      = commonRun ((a.drop i).take (ahi - i)) ((b.drop j).take (bhi - j)) := rfl
  rw [heq] at hk
  refine ⟨?_, ?_, ?_⟩
  · show (a.drop i).take (runAt a b ahi bhi i j) = (b.drop j).take (runAt a b ahi bhi i j)
    rw [heq]
    have h1 : min (commonRun ((a.drop i).take (ahi - i)) ((b.drop j).take (bhi - j)))
        (ahi - i) = commonRun ((a.drop i).take (ahi - i)) ((b.drop j).take (bhi - j)) := by
      omega
    have h2 : min (commonRun ((a.drop i).take (ahi - i)) ((b.drop j).take (bhi - j)))
        (bhi - j) = commonRun ((a.drop i).take (ahi - i)) ((b.drop j).take (bhi - j)) := by
      omega
    rwa [h1, h2] at htake
  · show i + runAt a b ahi bhi i j ≤ a.length
    rw [heq]
    omega
  · show j + runAt a b ahi bhi i j ≤ b.length
    rw [heq]
    omega

/-- The scan's accumulator is always either trivial or a genuine match. -/
theorem flm_fold_spec (a b : List Char) (ahi bhi : Nat) :
    ∀ (l : List (Nat × Nat)) (acc : Nat × Nat × Nat),
      (acc.2.2 = 0 ∨ ValidBlock a b acc) →
      ((l.foldl (flmStep a b ahi bhi) acc).2.2 = 0
        ∨ ValidBlock a b (l.foldl (flmStep a b ahi bhi) acc))
  | [], _, h => h
  | x :: xs, acc, h => by
    rw [List.foldl_cons]
    apply flm_fold_spec a b ahi bhi xs
    simp only [flmStep]
    by_cases hlt : acc.2.2 < runAt a b ahi bhi x.1 x.2
    · rw [if_pos hlt]
      exact Or.inr (runAt_valid a b ahi bhi x.1 x.2 (by omega))
    · rw [if_neg hlt]
      exact h

/-- `find_longest_match` returns a trivial block or a genuine match. -/
theorem find_longest_match_spec (a b : List Char) (alo ahi blo bhi : Nat) :
    (find_longest_match a b alo ahi blo bhi).2.2 = 0
    ∨ ValidBlock a b (find_longest_match a b alo ahi blo bhi) := by
  rw [find_longest_match]
  exact flm_fold_spec a b ahi bhi _ (alo, blo, 0) (Or.inl rfl)

/-- Every block collected by the recursion is a genuine match. -/
theorem matchingBlocksFuel_valid (a b : List Char) :
    ∀ fuel alo ahi blo bhi, ∀ t ∈ matchingBlocksFuel a b fuel alo ahi blo bhi,
      ValidBlock a b t
  | 0, _, _, _, _ => by
    intro t ht
    simp [matchingBlocksFuel] at ht
  | fuel + 1, alo, ahi, blo, bhi => by
    intro t ht
    simp only [matchingBlocksFuel] at ht
    by_cases h0 : (find_longest_match a b alo ahi blo bhi).2.2 = 0
    · rw [if_pos h0] at ht
      simp at ht
    · rw [if_neg h0] at ht
      rcases List.mem_append.mp ht with h | h
      · exact matchingBlocksFuel_valid a b fuel _ _ _ _ t h
      · rcases List.mem_cons.mp h with rfl | h
        · exact (find_longest_match_spec a b alo ahi blo bhi).resolve_left h0
        · exact matchingBlocksFuel_valid a b fuel _ _ _ _ t h

/-- Merging two adjacent genuine matches yields a genuine match. -/
theorem validBlock_merge (a b : List Char) (i1 j1 k1 i2 j2 k2 : Nat)
    (h1 : k1 = 0 ∨ ValidBlock a b (i1, j1, k1)) (h2 : ValidBlock a b (i2, j2, k2))
    (hi : i1 + k1 = i2) (hj : j1 + k1 = j2) :
    ValidBlock a b (i1, j1, k1 + k2) := by
  obtain ⟨hc2, ha2, hb2⟩ := h2
  have hc2' : (a.drop i2).take k2 = (b.drop j2).take k2 := hc2
  have ha2' : i2 + k2 ≤ a.length := ha2
  have hb2' : j2 + k2 ≤ b.length := hb2
  rcases h1 with rfl | ⟨hc1, ha1, hb1⟩
  · have hi2 : i1 = i2 := by omega
    have hj2 : j1 = j2 := by omega
    subst hi2
    subst hj2
    refine ⟨?_, ?_, ?_⟩
    · show (a.drop i1).take (0 + k2) = (b.drop j1).take (0 + k2)
      rw [Nat.zero_add]
      exact hc2'
    · show i1 + (0 + k2) ≤ a.length
      omega
    · show j1 + (0 + k2) ≤ b.length
      omega
  · have hc1' : (a.drop i1).take k1 = (b.drop j1).take k1 := hc1
    have ha1' : i1 + k1 ≤ a.length := ha1
    have hb1' : j1 + k1 ≤ b.length := hb1
    refine ⟨?_, ?_, ?_⟩
    · show (a.drop i1).take (k1 + k2) = (b.drop j1).take (k1 + k2)
      rw [List.take_add, List.take_add, hc1']
      congr 1
      rw [List.drop_drop, List.drop_drop]
      rw [show i1 + k1 = i2 from hi, show j1 + k1 = j2 from hj]
      exact hc2'
    · show i1 + (k1 + k2) ≤ a.length
      omega
    · show j1 + (k1 + k2) ≤ b.length
      omega

/-- The adjacency-merging pass preserves being a genuine match. -/
theorem collapseGo_valid (a b : List Char) :
    ∀ (l : List (Nat × Nat × Nat)) (acc : Nat × Nat × Nat),
      (acc.2.2 = 0 ∨ ValidBlock a b acc) →
      (∀ t ∈ l, ValidBlock a b t) →
      ∀ t ∈ collapseGo acc l, ValidBlock a b t
  | [], acc, hacc, _ => by
    intro t ht
    rw [collapseGo] at ht
    by_cases h : acc.2.2 ≠ 0
    · rw [if_pos h] at ht
      rcases List.mem_singleton.mp ht with rfl
      exact hacc.resolve_left h
    · rw [if_neg h] at ht
      simp at ht
  | x :: rest, acc, hacc, hl => by
    intro t ht
    rw [collapseGo] at ht
    by_cases hadj : acc.1 + acc.2.2 = x.1 ∧ acc.2.1 + acc.2.2 = x.2.1
    · rw [if_pos hadj] at ht
      refine collapseGo_valid a b rest (acc.1, acc.2.1, acc.2.2 + x.2.2) ?_ ?_ t ht
      · exact Or.inr (validBlock_merge a b acc.1 acc.2.1 acc.2.2 x.1 x.2.1 x.2.2
          hacc (hl x (List.mem_cons_self x rest)) hadj.1 hadj.2)
      · intro u hu
        exact hl u (List.mem_cons_of_mem x hu)
    · rw [if_neg hadj] at ht
      rcases List.mem_append.mp ht with h | h
      · by_cases hz : acc.2.2 ≠ 0
        · rw [if_pos hz] at h
          rcases List.mem_singleton.mp h with rfl
          exact hacc.resolve_left hz
        · rw [if_neg hz] at h
          simp at h
      · refine collapseGo_valid a b rest x ?_ ?_ t h
        · exact Or.inr (hl x (List.mem_cons_self x rest))
        · intro u hu
          exact hl u (List.mem_cons_of_mem x hu)

/-- Every block reported by `get_matching_blocks` is a genuine match. -/
theorem get_matching_blocks_valid (a b : List Char) :
    ∀ t ∈ get_matching_blocks a b, ValidBlock a b t := by
  intro t ht
  rw [get_matching_blocks] at ht
  rcases List.mem_append.mp ht with h | h
  · exact collapseGo_valid a b _ (0, 0, 0) (Or.inl rfl)
      (matchingBlocksFuel_valid a b _ 0 a.length 0 b.length) t h
  · rcases List.mem_singleton.mp h with rfl
    exact ⟨by simp, by simp, by simp⟩

/-- The overlap scan returns `0` or the size of a listed block that ends at
the end of `prev` and starts at the start of `curr`. -/
theorem findPerfectOverlap_spec :
    ∀ (l : List (Nat × Nat × Nat)) (lenPrev : Nat),
      findPerfectOverlap l lenPrev = 0
      ∨ ∃ t ∈ l, t.1 + t.2.2 = lenPrev ∧ t.2.1 = 0
          ∧ findPerfectOverlap l lenPrev = t.2.2
  | [], _ => Or.inl rfl
  | x :: rest, lenPrev => by
    by_cases h : x.1 + x.2.2 = lenPrev ∧ x.2.1 = 0
    · refine Or.inr ⟨x, List.mem_cons_self x rest, h.1, h.2, ?_⟩
      rw [findPerfectOverlap, if_pos h]
    · rcases findPerfectOverlap_spec rest lenPrev with h0 | ⟨t, htmem, ht1, ht2, ht3⟩
      · refine Or.inl ?_
        rw [findPerfectOverlap, if_neg h]
        exact h0
      · refine Or.inr ⟨t, List.mem_cons_of_mem x htmem, ht1, ht2, ?_⟩
        rw [findPerfectOverlap, if_neg h]
        exact ht3

/-- A non-zero `best_overlap_size` really is the length of a prefix of
`curr` that is a suffix of `prev` and fits inside `curr`. -/
theorem bestOverlapSize_spec (prev curr : List Char)
    (h : bestOverlapSize prev curr ≠ 0) :
    curr.take (bestOverlapSize prev curr) <:+ prev
    ∧ bestOverlapSize prev curr ≤ curr.length := by
  rcases findPerfectOverlap_spec ((get_matching_blocks prev curr).dropLast) prev.length
    with h0 | ⟨t, htmem, ht1, ht2, ht3⟩
  · exact absurd h0 h
  · obtain ⟨hc, hA, hB⟩ :=
      get_matching_blocks_valid prev curr t (List.mem_of_mem_dropLast htmem)
    have hbest : bestOverlapSize prev curr = t.2.2 := ht3
    rw [hbest]
    rw [ht2] at hc hB
    rw [List.drop_zero] at hc
    constructor
    · have hfull : (prev.drop t.1).take t.2.2 = prev.drop t.1 := by
        apply List.take_of_length_le
        rw [List.length_drop]
        omega
      rw [hfull] at hc
      rw [← hc]
      exact List.drop_suffix t.1 prev
    · simpa using hB

/-- **C6 (amended)**: at each merge step the code appends only the
non-overlapping remainder of the next fragment exactly when difflib's
matching-block decomposition of (accumulated, next) contains a block of
size at least 20 ending at the end of the accumulated text and starting at
the start of the next fragment; such a block is always a genuine common
suffix/prefix, so the overlapping portion then appears exactly once.  When
no common suffix-prefix block of length at least 20 exists at all, the
fragments are joined with a blank-line separator, never partially merged.
(The mere existence of a qualifying overlap does not force the merge: a
longer common block elsewhere masks it — see the counterexample.) -/
theorem C6_longest_overlap_merge (prev curr : List Char) :
    (MIN_OVERLAP_LENGTH ≤ bestOverlapSize prev curr →
      mergeStep prev curr = prev ++ curr.drop (bestOverlapSize prev curr)
      ∧ curr.take (bestOverlapSize prev curr) <:+ prev
      ∧ bestOverlapSize prev curr ≤ curr.length)
    ∧ (bestOverlapSize prev curr < MIN_OVERLAP_LENGTH →
      mergeStep prev curr = prev ++ '\n' :: '\n' :: curr)
    ∧ ((∀ k, MIN_OVERLAP_LENGTH ≤ k → k ≤ curr.length → ¬ curr.take k <:+ prev) →
      mergeStep prev curr = prev ++ '\n' :: '\n' :: curr) := by
  have hmin : MIN_OVERLAP_LENGTH = 20 := rfl
  refine ⟨?_, ?_, ?_⟩
  · intro h20
    have hne : bestOverlapSize prev curr ≠ 0 := by omega
    obtain ⟨hsuf, hlen⟩ := bestOverlapSize_spec prev curr hne
    refine ⟨?_, hsuf, hlen⟩
    simp only [mergeStep]
    rw [if_pos h20]
  · intro hlt
    have hneg : ¬ MIN_OVERLAP_LENGTH ≤ bestOverlapSize prev curr := by omega
    simp only [mergeStep]
    rw [if_neg hneg]
  · intro hnone
    by_cases h20 : MIN_OVERLAP_LENGTH ≤ bestOverlapSize prev curr
    · exfalso
      have hne : bestOverlapSize prev curr ≠ 0 := by omega
      obtain ⟨hsuf, hlen⟩ := bestOverlapSize_spec prev curr hne
      exact hnone _ h20 hlen hsuf
    · simp only [mergeStep]
      rw [if_neg h20]

set_option maxRecDepth 10000 in
/-- Witness for C6 at concrete fragments: a clean 20-character
suffix-prefix overlap is merged with the overlap counted once, and
fragments with no qualifying overlap are joined with the blank-line
separator. -/
theorem C6_longest_overlap_merge_witness :
    mergeStep (c6x ++ c6olap) (c6olap ++ c6y)
      = (c6x ++ c6olap)
        ++ (c6olap ++ c6y).drop (bestOverlapSize (c6x ++ c6olap) (c6olap ++ c6y))
    ∧ mergeStep c6x c6y = c6x ++ '\n' :: '\n' :: c6y :=
  ⟨((C6_longest_overlap_merge (c6x ++ c6olap) (c6olap ++ c6y)).1 (by decide)).1,
   (C6_longest_overlap_merge c6x c6y).2.1 (by decide)⟩

/-! ## Claim C2 -/

/-- **C2**: a pipeline invocation on a group whose LockMarker already
exists is a pure no-op: it performs no effect at all — in particular it
writes no SolutionDocument (no rename to a final name), writes no
FailureRecord, creates no provisional file, and moves no source image. -/
theorem C2_lock_single_flight (env : PipeEnv) (h : env.lockExists = true) :
    execute_pipeline env = []
    ∧ PipeEv.renameFinal ∉ execute_pipeline env
    ∧ PipeEv.writeFailureLog ∉ execute_pipeline env
    ∧ PipeEv.createProvisional ∉ execute_pipeline env
    ∧ ∀ i, PipeEv.moveImage i ∉ execute_pipeline env := by
  have htrace : execute_pipeline env = [] := by
    simp [execute_pipeline, h]
  rw [htrace]
  simp

/-- Witness for C2: the concrete environment of the C7 counterexample, but
with the LockMarker present, produces the empty effect trace. -/
theorem C2_lock_single_flight_witness :
    execute_pipeline envC2 = [] :=
  (C2_lock_single_flight envC2 rfl).1

/-! ## Claim C7 -/

/-- `takeWhile` passes over a prefix on which the predicate holds. -/
theorem takeWhile_append_all {α} (p : α → Bool) :
    ∀ l1 l2 : List α, (∀ x ∈ l1, p x = true) →
      (l1 ++ l2).takeWhile p = l1 ++ l2.takeWhile p
  | [], _, _ => rfl
  | x :: xs, l2, h => by
    rw [List.cons_append, List.takeWhile_cons, h x (List.mem_cons_self x xs)]
    rw [takeWhile_append_all p xs l2 (fun y hy => h y (List.mem_cons_of_mem x hy))]
    simp

/-- A filter over elements that all fail the predicate is empty. -/
theorem filter_eq_nil_of_all {α} (p : α → Bool) :
    ∀ l : List α, (∀ x ∈ l, p x = false) → l.filter p = []
  | [], _ => rfl
  | x :: xs, h => by
    rw [List.filter_cons, h x (List.mem_cons_self x xs)]
    simp only [Bool.false_eq_true, if_false]
    exact filter_eq_nil_of_all p xs (fun y hy => h y (List.mem_cons_of_mem x hy))

/-- A filter over elements that all satisfy the predicate is the identity. -/
theorem filter_eq_self_of_all {α} (p : α → Bool) :
    ∀ l : List α, (∀ x ∈ l, p x = true) → l.filter p = l
  | [], _ => rfl
  | x :: xs, h => by
    rw [List.filter_cons, h x (List.mem_cons_self x xs)]
    simp only [if_true]
    rw [filter_eq_self_of_all p xs (fun y hy => h y (List.mem_cons_of_mem x hy))]

/-- Every archive event is an image move. -/
theorem archiveEvents_moveImage (env : PipeEnv) :
    ∀ e ∈ archiveEvents env, ∃ i, e = PipeEv.moveImage i := by
  intro e he
  rw [archiveEvents] at he
  rcases List.mem_filterMap.mp he with ⟨i, _, hsome⟩
  by_cases hex : env.imageExists i
  · rw [if_pos hex] at hsome
    exact ⟨i, (Option.some_injective _ hsome).symm⟩
  · rw [if_neg hex] at hsome
    exact absurd hsome (by simp)

/-- No event after the answer write is another answer write. -/
theorem cleanup_no_answer (env : PipeEnv) :
    ∀ e ∈ cleanupEvents env, isAnswerWrite e = false := by
  intro e he
  rw [cleanupEvents] at he
  rcases List.mem_cons.mp he with rfl | he
  · rfl
  · obtain ⟨i, rfl⟩ := archiveEvents_moveImage env e he
    rfl

/-- In `streamAndFinish` the provisional file receives the answer text in
exactly one write, of the fully joined answer, and every chunk of the
stream is received strictly before that write. -/
theorem streamAndFinish_spec (env : PipeEnv) (ft : String) :
    (streamAndFinish env ft).filter isAnswerWrite
        = [PipeEv.writeAnswer (String.join env.chunks)]
    ∧ ((streamAndFinish env ft).takeWhile (fun e => !isAnswerWrite e)).filter isRecv
        = env.chunks.map PipeEv.recvChunk := by
  have hrecvA : ∀ e ∈ env.chunks.map PipeEv.recvChunk, isAnswerWrite e = false := by
    intro e he
    rcases List.mem_map.mp he with ⟨c, _, rfl⟩
    rfl
  have hrecvNA : ∀ e ∈ env.chunks.map PipeEv.recvChunk, (!isAnswerWrite e) = true := by
    intro e he
    rw [hrecvA e he]
    rfl
  have hrecvR : ∀ e ∈ env.chunks.map PipeEv.recvChunk, isRecv e = true := by
    intro e he
    rcases List.mem_map.mp he with ⟨c, _, rfl⟩
    rfl
  have htail : ∀ e ∈ (if answer_valid (String.join env.chunks) then
        PipeEv.renameFinal :: cleanupEvents env
      else
        PipeEv.writeFailureLog :: PipeEv.deleteProvisional :: cleanupEvents env),
      isAnswerWrite e = false := by
    intro e he
    by_cases hv : answer_valid (String.join env.chunks)
    · rw [if_pos hv] at he
      rcases List.mem_cons.mp he with rfl | he
      · rfl
      · exact cleanup_no_answer env e he
    · rw [if_neg hv] at he
      rcases List.mem_cons.mp he with rfl | he
      · rfl
      · rcases List.mem_cons.mp he with rfl | he
        · rfl
        · exact cleanup_no_answer env e he
  constructor
  · simp only [streamAndFinish]
    rw [List.filter_cons]
    simp only [show isAnswerWrite (PipeEv.writeHeader ft) = false from rfl,
      Bool.false_eq_true, if_false]
    rw [List.filter_append, filter_eq_nil_of_all isAnswerWrite _ hrecvA]
    rw [List.nil_append, List.filter_cons]
    simp only [show isAnswerWrite (PipeEv.writeAnswer (String.join env.chunks)) = true
      from rfl, if_true]
    rw [filter_eq_nil_of_all isAnswerWrite _ htail]
  · simp only [streamAndFinish]
    rw [List.takeWhile_cons]
    simp only [show (!isAnswerWrite (PipeEv.writeHeader ft)) = true from rfl, if_true]
    rw [takeWhile_append_all _ _ _ hrecvNA]
    rw [List.takeWhile_cons]
    simp only [show (!isAnswerWrite (PipeEv.writeAnswer (String.join env.chunks))) = false
      from rfl, Bool.false_eq_true, if_false]
    rw [List.append_nil, List.filter_cons]
    simp only [show isRecv (PipeEv.writeHeader ft) = false from rfl,
      Bool.false_eq_true, if_false]
    exact filter_eq_self_of_all isRecv _ hrecvR

/-- **C7 (amended)**: for every task that reaches the solving step, the
chunks of the streamed answer are accumulated in memory and the answer
text reaches the provisional file in a single write performed only after
the entire stream has been drained: the trace contains exactly one
answer-write event, carrying the join of all chunks, and every chunk
receive precedes it — so mid-stream the provisional file contains only the
header, and per-chunk progress is not observable in the file. -/
theorem C7_streaming_persistence (env : PipeEnv)
    (hlock : env.lockExists = false)
    (htext : env.problemType ∈ textualizeTypes → env.textualized ≠ none)
    (hsolve : env.problemType = "VISUAL_REASONING" ∨ env.hasTemplate = true) :
    (execute_pipeline env).filter isAnswerWrite
        = [PipeEv.writeAnswer (String.join env.chunks)]
    ∧ ((execute_pipeline env).takeWhile (fun e => !isAnswerWrite e)).filter isRecv
        = env.chunks.map PipeEv.recvChunk := by
  have hcond : ¬ (env.problemType ∈ textualizeTypes ∧ env.textualized = none) := by
    rintro ⟨hmem, hnone⟩
    exact htext hmem hnone
  obtain ⟨ft, htrace⟩ : ∃ ft, execute_pipeline env
      = PipeEv.touchLock :: PipeEv.createProvisional :: streamAndFinish env ft := by
    simp only [execute_pipeline]
    rw [if_neg (show ¬ env.lockExists = true by simp [hlock]), if_neg hcond]
    by_cases hv : env.problemType = "VISUAL_REASONING"
    · rw [if_pos hv]
      exact ⟨"VISUAL_REASONING", rfl⟩
    · rw [if_neg hv]
      rcases hsolve with hv' | ht
      · exact absurd hv' hv
      · rw [if_pos ht]
        exact ⟨_, rfl⟩
  obtain ⟨hfil, htak⟩ := streamAndFinish_spec env ft
  rw [htrace]
  constructor
  · rw [List.filter_cons, List.filter_cons]
    simp only [show isAnswerWrite PipeEv.touchLock = false from rfl,
      show isAnswerWrite PipeEv.createProvisional = false from rfl,
      Bool.false_eq_true, if_false]
    exact hfil
  · rw [List.takeWhile_cons, List.takeWhile_cons]
    simp only [show (!isAnswerWrite PipeEv.touchLock) = true from rfl,
      show (!isAnswerWrite PipeEv.createProvisional) = true from rfl, if_true]
    rw [List.filter_cons, List.filter_cons]
    simp only [show isRecv PipeEv.touchLock = false from rfl,
      show isRecv PipeEv.createProvisional = false from rfl,
      Bool.false_eq_true, if_false]
    exact htak

/-- Witness for C7 (amended) at the concrete two-chunk environment. -/
theorem C7_streaming_persistence_witness :
    (execute_pipeline envC7).filter isAnswerWrite
        = [PipeEv.writeAnswer "Hello world"]
    ∧ ((execute_pipeline envC7).takeWhile (fun e => !isAnswerWrite e)).filter isRecv
        = [PipeEv.recvChunk "Hello ", PipeEv.recvChunk "world"] :=
  C7_streaming_persistence envC7 rfl (fun _ h => by exact absurd h (by simp [envC7]))
    (Or.inr rfl)

/-- **C7 counterexample**: the claim says each received chunk is appended
directly to the provisional file as it arrives, so the file's contents
grow mid-stream.  On a task whose stream yields `"Hello "` then
`"world"`, the full trace shows both chunks are received before any
answer text is written to the provisional file: the trace prefix ending
right after the first receive (its first four events) contains no
answer-write event, so after the first chunk has arrived the provisional
file still contains only the header — mid-stream progress is not
observable. -/
theorem C7_counterexample :
    execute_pipeline envC7
      = [PipeEv.touchLock, PipeEv.createProvisional, PipeEv.writeHeader "GENERAL",
         PipeEv.recvChunk "Hello ", PipeEv.recvChunk "world",
         PipeEv.writeAnswer "Hello world", PipeEv.renameFinal, PipeEv.deleteLock,
         PipeEv.moveImage 0]
    ∧ ((execute_pipeline envC7).take 4).filter isAnswerWrite = []
    ∧ (execute_pipeline envC7).take 4
      = [PipeEv.touchLock, PipeEv.createProvisional, PipeEv.writeHeader "GENERAL",
         PipeEv.recvChunk "Hello "] := by
  refine ⟨by decide, by decide, by decide⟩

/-! ## Claim C1 -/

set_option maxRecDepth 10000 in
/-- **C1** (code bug): the validation guarding the rename checks the
literal `"--- ERROR ---"`, but the inline terminal-error chunks actually
emitted by the converged clients (`solver_client.stream_solve`,
`qwen_client._call_qwen_api`) do not contain that substring — only the
superseded V2.4 marker format does.  Consequently an answer consisting
solely of the in-band terminal-error chunk passes validation and the run
renames the provisional file to a final SolutionDocument containing the
error text, with no FailureRecord — contradicting the claim that a file
appears under its final name only after the answer has been validated
free of the inline terminal-error marker (and the spec's "either failure
aborts the task"). -/
theorem C1_error_marker_slips_validation :
    pyInStr "--- ERROR ---" (solverErrorChunk "deepseek-reasoner") = false
    ∧ pyInStr "--- ERROR ---" qwenErrorChunk = false
    ∧ answer_valid (solverErrorChunk "deepseek-reasoner") = true
    ∧ answer_valid qwenErrorChunk = true
    ∧ answer_valid (legacyErrorChunk "connection refused") = false
    ∧ PipeEv.renameFinal ∈ execute_pipeline envC1
    ∧ PipeEv.writeFailureLog ∉ execute_pipeline envC1 := by
  refine ⟨by decide, by decide, by decide, by decide, by decide, by decide, by decide⟩

set_option maxRecDepth 10000 in
/-- **C6 counterexample**: `prev = c6mask ++ c6olap` and
`curr = c6olap ++ c6mask` share the 20-character block `c6olap` as an exact
suffix of `prev` and exact prefix of `curr` — a qualifying overlap under
the claim — yet the merge joins the fragments with the blank-line
separator (the 21-character block `c6mask` is the longest match, and
difflib's decomposition never visits the suffix-prefix region), so the
overlapping portion appears twice, not once, and the claimed
"append only the non-overlapping remainder" result is not produced. -/
theorem C6_counterexample :
    (c6olap.length = 20 ∧ MIN_OVERLAP_LENGTH ≤ c6olap.length)
    ∧ (c6olap ++ c6mask).take c6olap.length <:+ (c6mask ++ c6olap)
    ∧ merge_transcribed_texts [c6mask ++ c6olap, c6olap ++ c6mask]
        = (c6mask ++ c6olap) ++ '\n' :: '\n' :: (c6olap ++ c6mask)
    ∧ merge_transcribed_texts [c6mask ++ c6olap, c6olap ++ c6mask]
        ≠ (c6mask ++ c6olap) ++ (c6olap ++ c6mask).drop c6olap.length := by
  refine ⟨by decide, by decide, by decide, by decide⟩

end ProblemSolverAgent

